import Mathlib

/-! # Slic3r `Polygon.hpp`: closed rings, their conversions and the Boost.Polygon adapter

A shallow embedding of the inline functions of `xs/src/libslic3r/Polygon.hpp`.

* `std::vector<T>` is a `List T`; a vector iterator is the index of the element it
  points at (`begin()` is `0`, `end()` is the length).
* The C++ operations that have undefined behaviour on some inputs (`front()`, `back()`
  and `pop_back()` of an empty vector, dereferencing an iterator that is not inside the
  stored range) return `Option`: `none` stands for undefined behaviour and for nothing
  else, `some r` for a defined result `r`.
* Functions taking `const&` arguments return their result; functions mutating a
  reference argument return the new value of that argument.
-/

namespace Slic3r

/-! ## Data model -/

/-- Modelled from the spec: the point primitive of `Point.hpp` (not part of the
sources at hand), "an ordered sequence of 2D integer-coordinate points". -/
structure Point where
  x : Int
  y : Int
deriving DecidableEq, Repr

/-- The value built by the default constructor `Point()`. -/
instance : Inhabited Point := ⟨⟨0, 0⟩⟩

/-- The type `Points`, a `std::vector<Point>`. -/
abbrev Points := List Point

/-- Modelled from the spec: the segment type of `Line.hpp`, built as `Line(a, b)`. -/
structure Line where
  a : Point
  b : Point
deriving DecidableEq, Repr

/-- The type `Lines`, a `std::vector<Line>`. -/
abbrev Lines := List Line

/-- The class `Polygon : public MultiPoint`; its only data member is `points`. -/
structure Polygon where
  points : Points
deriving DecidableEq, Repr

/-- The default constructor `Polygon()`. -/
instance : Inhabited Polygon := ⟨⟨[]⟩⟩

/-- The type `Polygons`, `typedef std::vector<Polygon> Polygons`. -/
abbrev Polygons := List Polygon

/-- Modelled from the spec: the open-path type of `Polyline.hpp`; the code at hand only
uses its member `points` and its default constructor. -/
structure Polyline where
  points : Points
deriving DecidableEq, Repr

/-- The default constructor `Polyline()`. -/
instance : Inhabited Polyline := ⟨⟨[]⟩⟩

/-- The type `Polylines`, a `std::vector<Polyline>`. -/
abbrev Polylines := List Polyline

/-! ## The `std::vector` operations the header uses -/

section Vector
variable {α : Type}

/-- The call `v.push_back(x)`. -/
def push_back (v : List α) (x : α) : List α := v ++ [x]

/-- The call `v.clear()`. -/
def clear (_v : List α) : List α := []

/-- The call `v.front()`: undefined on an empty vector. -/
def front (v : List α) : Option α := v.head?

/-- The call `v.back()`: undefined on an empty vector. -/
def back (v : List α) : Option α := v.getLast?

/-- The call `v.pop_back()`: undefined on an empty vector. -/
def pop_back (v : List α) : Option (List α) :=
  match v with
  | [] => none
  | _ :: _ => some v.dropLast

/-- A write `f` through the reference `v.back()`: undefined on an empty vector. -/
def modify_back (v : List α) (f : α → α) : Option (List α) :=
  match back v with
  | none => none
  | some last => some (v.dropLast ++ [f last])

/-- The call `v.insert(pos, first, last)` of the range `xs` before position `pos`. -/
def insert_range (v : List α) (pos : Nat) (xs : List α) : List α :=
  v.take pos ++ xs ++ v.drop pos

/-- The call `v.assign(first, last)`: the old contents go, the range is stored in its
order. -/
def assign_range (v : List α) (xs : List α) : List α :=
  xs.foldl push_back (clear v)

/-- The call `v.assign(n, x)`: `n` copies of `x`. -/
def assign_fill (_v : List α) (n : Nat) (x : α) : List α :=
  List.replicate n x

/-- The assignment `dst = std::move(src)` of a vector whose source `src` is reached
through a `const` access path: `std::move` then yields a `const&&`, which only the copy
assignment `operator=(const vector&)` accepts, so the elements are copied and the
source keeps them. Returns the new `dst` and the source after the assignment. -/
def move_assign_const (src : List α) : List α × List α := (src, src)

/-- The traversal `for (it = first; it != last; ++it) visit(*it)` of a vector whose
iterators are indices, collecting the values read. Reading at an index outside the
stored elements is undefined. -/
def visit_range (v : List α) (first last : Nat) : Option (List α) :=
  if first = last then some []
  else if h : first < v.length then
    match visit_range v (first + 1) last with
    | none => none
    | some rest => some (v[first] :: rest)
  else none
termination_by v.length - first

end Vector

/-! ## Free functions of namespace `Slic3r` -/

/-- The overload `polygons_append(Polygons &dst, const Polygons &src)`:
`dst.insert(dst.end(), src.begin(), src.end())`. Returns the new `dst`. -/
def polygons_append (dst src : Polygons) : Polygons :=
  insert_range dst dst.length src

/-- The overload `polygons_append(Polygons &dst, Polygons &&src)`: a whole-vector move
when `dst` is empty, otherwise `std::move(begin(src), end(src), back_inserter(dst))`,
which pushes the elements of `src` to the back of `dst` one by one. Returns the new
`dst`; the moved-from `src` is left in an unspecified state and is not modelled. -/
def polygons_append_move (dst src : Polygons) : Polygons :=
  if dst.isEmpty then src
  else src.foldl push_back dst

/-- The loop of `to_lines`:
`for (it = points.begin(); it != points.end()-1; ++it) lines.push_back(Line(*it, *(it + 1)))`.
The bound `points.end()-1` is the integer `size - 1`, which is `-1` for an empty
vector; the body reads the elements at `it` and `it + 1`. -/
def to_lines_loop (points : Points) (it : Nat) (lines : Lines) : Option Lines :=
  if (it : Int) = (points.length : Int) - 1 then some lines
  else if h : it + 1 < points.length then
    to_lines_loop points (it + 1) (push_back lines (Line.mk points[it] points[it + 1]))
  else none
termination_by points.length - it

/-- The function `to_lines(const Polygon &poly)`. -/
def to_lines (poly : Polygon) : Option Lines :=
  match to_lines_loop poly.points 0 [] with
  | none => none
  | some lines =>
    match back poly.points, front poly.points with
    | some b, some f => some (push_back lines (Line.mk b f))
    | _, _ => none

/-- The count `n_lines` that `to_lines(const Polygons &polys)` reserves up front. -/
def to_lines_n_lines (polys : Polygons) : Nat :=
  polys.foldl (fun n_lines poly => n_lines + poly.points.length) 0

/-- The outer loop of `to_lines(const Polygons &polys)` over the members of `polys`,
in order, appending to `lines`. -/
def to_lines_polys_loop : Polygons → Lines → Option Lines
  | [], lines => some lines
  | poly :: rest, lines =>
    match to_lines_loop poly.points 0 lines with
    | none => none
    | some lines1 =>
      match back poly.points, front poly.points with
      | some b, some f => to_lines_polys_loop rest (push_back lines1 (Line.mk b f))
      | _, _ => none

/-- The function `to_lines(const Polygons &polys)`. -/
def to_lines_polys (polys : Polygons) : Option Lines :=
  to_lines_polys_loop polys []

/-- The loop of `to_polylines`: for each polygon, `Polyline &pl = polylines[idx ++]`,
`pl.points = it->points`, `pl.points.push_back(it->points.front())`. The state is the
vector `polylines` and the counter `idx`. -/
def to_polylines_loop : Polygons → Polylines → Nat → Option (Polylines × Nat)
  | [], polylines, idx => some (polylines, idx)
  | poly :: rest, polylines, idx =>
    if idx < polylines.length then
      match front poly.points with
      | none => none
      | some f =>
        to_polylines_loop rest (polylines.set idx ⟨push_back poly.points f⟩) (idx + 1)
    else none

/-- The body of `to_polylines(const Polygons &polys)` up to its closing assertion: the
final `polylines` and the final `idx`. -/
def to_polylines_run (polys : Polygons) : Option (Polylines × Nat) :=
  to_polylines_loop polys (assign_fill [] polys.length default) 0

/-- The function `to_polylines(const Polygons &polys)`. -/
def to_polylines (polys : Polygons) : Option Polylines :=
  (to_polylines_run polys).map Prod.fst

/-! ## The Boost.Polygon adapter -/

/-- The enumeration `boost::polygon::winding_direction`. -/
inductive winding_direction where
  | clockwise_winding
  | counterclockwise_winding
  | unknown_winding
deriving DecidableEq, Repr

/-- The call `boost::polygon::assign(dst, src)` on two points: `dst` takes the
coordinates of `src`. -/
def assign (_dst src : Point) : Point := ⟨src.x, src.y⟩

namespace polygon_traits

/-- The member `polygon_traits<Polygon>::begin_points`: `t.points.begin()`. -/
def begin_points (_t : Polygon) : Nat := 0

/-- The member `polygon_traits<Polygon>::end_points`: `t.points.end()`. -/
def end_points (t : Polygon) : Nat := t.points.length

/-- The member `polygon_traits<Polygon>::size`: `t.points.size()`. -/
def size (t : Polygon) : Nat := t.points.length

/-- The member `polygon_traits<Polygon>::winding`. -/
def winding (_t : Polygon) : winding_direction := winding_direction.unknown_winding

end polygon_traits

namespace polygon_mutable_traits

/-- The loop of `set_points`: `while (input_begin != input_end)` push a default point,
assign the input point to `polygon.points.back()`, advance. -/
def set_points_loop (polygon : Polygon) : List Point → Option Polygon
  | [] => some polygon
  | p :: rest =>
    match modify_back (push_back polygon.points default) (fun dst => assign dst p) with
    | none => none
    | some points => set_points_loop ⟨points⟩ rest

/-- The member `polygon_mutable_traits<Polygon>::set_points(polygon, input_begin,
input_end)`; `input` is the range from `input_begin` to `input_end`. Clears the points,
runs the loop, then `polygon.points.pop_back()`. Returns the new value of `polygon`. -/
def set_points (polygon : Polygon) (input : List Point) : Option Polygon :=
  match set_points_loop ⟨clear polygon.points⟩ input with
  | none => none
  | some polygon1 =>
    match pop_back polygon1.points with
    | none => none
    | some points => some ⟨points⟩

end polygon_mutable_traits

namespace polygon_set_traits

/-- The member `polygon_set_traits<Polygons>::begin`. -/
def begin (_polygon_set : Polygons) : Nat := 0

/-- The member `polygon_set_traits<Polygons>::end` (`end` is a reserved word here). -/
def end_ (polygon_set : Polygons) : Nat := polygon_set.length

/-- The member `polygon_set_traits<Polygons>::clean`. -/
def clean (_polygon_set : Polygons) : Bool := false

/-- The member `polygon_set_traits<Polygons>::sorted`. -/
def sorted (_polygon_set : Polygons) : Bool := false

end polygon_set_traits

namespace polygon_set_mutable_traits

/-- The member `polygon_set_mutable_traits<Polygons>::set`:
`polygons.assign(input_begin, input_end)`. Returns the new value of `polygons`. -/
def set (polygons : Polygons) (input : List Polygon) : Polygons :=
  assign_range polygons input

end polygon_set_mutable_traits

/-! ## The rvalue overload of `to_polylines` -/

/-- The loop of `to_polylines(Polygons &&polys)`: for each polygon,
`Polyline &pl = polylines[idx ++]`, `pl.points = std::move(it->points)`,
`pl.points.push_back(it->points.front())`. The iterator `it` is a
`Polygons::const_iterator`, so `it->points` is a `const Points`; `front()` is read from
the polygon as the assignment left it. -/
def to_polylines_move_loop : Polygons → Polylines → Nat → Option (Polylines × Nat)
  | [], polylines, idx => some (polylines, idx)
  | poly :: rest, polylines, idx =>
    if idx < polylines.length then
      match move_assign_const poly.points with
      | (pl_points, poly_points_after) =>
        match front poly_points_after with
        | none => none
        | some f =>
          to_polylines_move_loop rest (polylines.set idx ⟨push_back pl_points f⟩) (idx + 1)
    else none

/-- The body of `to_polylines(Polygons &&polys)` up to its closing assertion: the final
`polylines` and the final `idx`. -/
def to_polylines_move_run (polys : Polygons) : Option (Polylines × Nat) :=
  to_polylines_move_loop polys (assign_fill [] polys.length default) 0

/-- The function `to_polylines(Polygons &&polys)`. -/
def to_polylines_move (polys : Polygons) : Option Polylines :=
  (to_polylines_move_run polys).map Prod.fst

/-! ## Members declared in the header and defined in `Polygon.cpp` -/

/-- Modelled from the spec: `remove_degenerate(Polygons &polys)`, declared `extern` in
the header and defined in `Polygon.cpp`: "remove every Polygon with fewer than 3 points
from a collection, in place." Returns the new collection; what the returned `bool`
means is told neither by the header nor by the spec and is not modelled. -/
def remove_degenerate : Polygons → Polygons
  | [] => []
  | poly :: rest =>
    if poly.points.length < 3 then remove_degenerate rest
    else poly :: remove_degenerate rest

/-! ## Lemmas on the vector operations -/

section VectorLemmas
variable {α : Type}

theorem modify_back_push_back (v : List α) (x : α) (f : α → α) :
    modify_back (push_back v x) f = some (push_back v (f x)) := by
  simp [modify_back, back, push_back]

theorem pop_back_of_ne_nil (v : List α) (h : v ≠ []) : pop_back v = some v.dropLast := by
  cases v with
  | nil => exact absurd rfl h
  | cons a w => rfl

theorem foldl_push_back (xs v : List α) : xs.foldl push_back v = v ++ xs := by
  induction xs generalizing v with
  | nil => simp
  | cons a w ih => simp [List.foldl_cons, ih, push_back]

theorem visit_range_to_end (v : List α) (k first : Nat) (h : first + k = v.length) :
    visit_range v first v.length = some (v.drop first) := by
  induction k generalizing first with
  | zero =>
    have hf : first = v.length := by omega
    rw [visit_range]
    simp [hf]
  | succ k ih =>
    have hlt : first < v.length := by omega
    rw [visit_range, if_neg (Nat.ne_of_lt hlt), dif_pos hlt, ih (first + 1) (by omega),
      List.drop_eq_getElem_cons hlt]

theorem visit_range_all (v : List α) : visit_range v 0 v.length = some v := by
  simpa using visit_range_to_end v v.length 0 (by omega)

end VectorLemmas

/-! ## Lemmas on the loops -/

theorem assign_eq (dst src : Point) : assign dst src = src := rfl

theorem set_points_loop_eq (input : List Point) (polygon : Polygon) :
    polygon_mutable_traits.set_points_loop polygon input
      = some ⟨polygon.points ++ input⟩ := by
  induction input generalizing polygon with
  | nil => simp [polygon_mutable_traits.set_points_loop]
  | cons p rest ih =>
    rw [polygon_mutable_traits.set_points_loop, modify_back_push_back]
    simp [ih, push_back, assign_eq]

theorem to_lines_loop_eq (points : Points) (k it : Nat) (lines : Lines)
    (h : it + k + 1 = points.length) :
    to_lines_loop points it lines
      = some (lines ++ List.zipWith Line.mk (points.drop it) (points.drop (it + 1))) := by
  induction k generalizing it lines with
  | zero =>
    have hd : points.drop (it + 1) = [] := List.drop_eq_nil_of_le (by omega)
    rw [to_lines_loop]
    have hc : (it : Int) = (points.length : Int) - 1 := by omega
    simp [hc, hd]
  | succ k ih =>
    have hc : ¬ ((it : Int) = (points.length : Int) - 1) := by omega
    have h1 : it + 1 < points.length := by omega
    have h0 : it < points.length := by omega
    have e : List.zipWith Line.mk (points.drop it) (points.drop (it + 1))
        = Line.mk points[it] points[it + 1]
          :: List.zipWith Line.mk (points.drop (it + 1)) (points.drop (it + 1 + 1)) := by
      conv_lhs => rw [List.drop_eq_getElem_cons h0]
      conv_lhs => arg 3; rw [List.drop_eq_getElem_cons h1]
      rw [List.zipWith_cons_cons]
    rw [to_lines_loop, if_neg hc, dif_pos h1, ih (it + 1) _ (by omega), e, push_back,
      List.append_assoc]
    rfl

theorem front_eq_get {α : Type} (v : List α) (h : 0 < v.length) :
    front v = some (v.get ⟨0, h⟩) := by
  cases v with
  | nil => simp at h
  | cons a w => rfl

theorem back_eq_get {α : Type} (v : List α) (h : 0 < v.length) :
    back v = some (v.get ⟨v.length - 1, by omega⟩) := by
  rw [back, List.getLast?_eq_getElem?, List.getElem?_eq_getElem (by omega)]
  rfl

/-- The lines of a polygon with at least one stored point: the consecutive stored
pairs, then the closing edge from the last stored point to the first. -/
theorem to_lines_eq (poly : Polygon) (h : 0 < poly.points.length) :
    to_lines poly
      = some (List.zipWith Line.mk poly.points (poly.points.drop 1)
          ++ [Line.mk (poly.points.get ⟨poly.points.length - 1, by omega⟩)
                (poly.points.get ⟨0, h⟩)]) := by
  have hl := to_lines_loop_eq poly.points (poly.points.length - 1) 0 [] (by omega)
  simp only [List.drop_zero, List.nil_append, Nat.zero_add] at hl
  simp only [to_lines, hl, front_eq_get _ h, back_eq_get _ h, push_back]

/-! ## Lemmas on `remove_degenerate` -/

theorem remove_degenerate_eq_filter (polys : Polygons) :
    remove_degenerate polys = polys.filter (fun poly => decide (3 ≤ poly.points.length)) := by
  induction polys with
  | nil => rfl
  | cons poly rest ih =>
    by_cases h : poly.points.length < 3
    · have h3 : ¬ 3 ≤ poly.points.length := by omega
      simp [remove_degenerate, h, h3, ih]
    · have h3 : 3 ≤ poly.points.length := by omega
      simp [remove_degenerate, h, h3, ih]

/-! ## Lemmas on `to_polylines` -/

theorem to_polylines_loop_eq (rest : Polygons) (done : Polylines)
    (h : ∀ poly ∈ rest, poly.points ≠ []) :
    to_polylines_loop rest (done ++ List.replicate rest.length default) done.length
      = some (done ++ rest.map (fun poly => Polyline.mk (poly.points ++ poly.points.take 1)),
          done.length + rest.length) := by
  induction rest generalizing done with
  | nil => simp [to_polylines_loop]
  | cons poly rest ih =>
    have hrest : ∀ q ∈ rest, q.points ≠ [] := fun q hq => h q (List.mem_cons_of_mem _ hq)
    have hpoly : poly.points ≠ [] := h poly (List.mem_cons_self _ _)
    obtain ⟨f, t, hft⟩ := List.exists_cons_of_ne_nil hpoly
    have hlt : done.length
        < (done ++ List.replicate (poly :: rest).length (default : Polyline)).length := by
      simp
    have hset : (done ++ List.replicate (poly :: rest).length (default : Polyline)).set
          done.length ⟨push_back poly.points f⟩
        = (done ++ [Polyline.mk (push_back poly.points f)])
            ++ List.replicate rest.length default := by
      simp [List.replicate_succ]
    rw [to_polylines_loop, if_pos hlt]
    have hfront : front poly.points = some f := by rw [hft]; rfl
    simp only [hfront, hset]
    have ih2 := ih (done ++ [Polyline.mk (push_back poly.points f)]) hrest
    simp only [List.length_append, List.length_singleton] at ih2
    rw [ih2]
    simp [push_back, hft, Nat.add_assoc, Nat.add_comm 1]

theorem to_polylines_run_eq (polys : Polygons) (h : ∀ poly ∈ polys, poly.points ≠ []) :
    to_polylines_run polys
      = some (polys.map (fun poly => Polyline.mk (poly.points ++ poly.points.take 1)),
          polys.length) := by
  have e := to_polylines_loop_eq polys [] h
  simpa [to_polylines_run, assign_fill] using e

theorem to_polylines_eq (polys : Polygons) (h : ∀ poly ∈ polys, poly.points ≠ []) :
    to_polylines polys
      = some (polys.map (fun poly => Polyline.mk (poly.points ++ poly.points.take 1))) := by
  simp [to_polylines, to_polylines_run_eq polys h]

theorem to_polylines_move_loop_eq (rest : Polygons) (polylines : Polylines) (idx : Nat) :
    to_polylines_move_loop rest polylines idx = to_polylines_loop rest polylines idx := by
  induction rest generalizing polylines idx with
  | nil => rfl
  | cons poly rest ih =>
    simp only [to_polylines_move_loop, to_polylines_loop, move_assign_const, ih]

/-! ## Lemmas on `set_points` and on `to_lines` over a collection -/

theorem set_points_eq_dropLast (polygon : Polygon) (input : List Point) (hne : input ≠ []) :
    polygon_mutable_traits.set_points polygon input = some ⟨input.dropLast⟩ := by
  simp [polygon_mutable_traits.set_points, set_points_loop_eq, clear,
    pop_back_of_ne_nil _ hne]

theorem dropLast_append_take_one (points : Points) (hne : points ≠ []) :
    (points ++ points.take 1).dropLast = points := by
  obtain ⟨f, t, hft⟩ := List.exists_cons_of_ne_nil hne
  rw [hft]
  exact List.dropLast_concat

theorem to_lines_n_lines_eq_sum (polys : Polygons) :
    to_lines_n_lines polys = (polys.map (fun poly => poly.points.length)).sum := by
  have gen : ∀ (l : Polygons) (init : Nat),
      l.foldl (fun n_lines poly => n_lines + poly.points.length) init
        = init + (l.map (fun poly => poly.points.length)).sum := by
    intro l
    induction l with
    | nil => intro init; simp
    | cons poly rest ih => intro init; simp [ih, Nat.add_assoc]
  simpa [to_lines_n_lines] using gen polys 0

theorem to_lines_polys_loop_eq (polys : Polygons) (h : ∀ poly ∈ polys, poly.points ≠ [])
    (acc : Lines) :
    ∃ parts : List Lines,
      List.Forall₂ (fun poly ls => to_lines poly = some ls) polys parts ∧
      to_lines_polys_loop polys acc = some (acc ++ parts.flatten) ∧
      parts.flatten.length = (polys.map (fun poly => poly.points.length)).sum := by
  induction polys generalizing acc with
  | nil => exact ⟨[], List.Forall₂.nil, by simp [to_lines_polys_loop], by simp⟩
  | cons poly rest ih =>
    have hrest : ∀ q ∈ rest, q.points ≠ [] := fun q hq => h q (List.mem_cons_of_mem _ hq)
    have hpos : 0 < poly.points.length :=
      List.length_pos.mpr (h poly (List.mem_cons_self _ _))
    have hone := to_lines_eq poly hpos
    have hloop := to_lines_loop_eq poly.points (poly.points.length - 1) 0 acc (by omega)
    simp only [List.drop_zero, Nat.zero_add] at hloop
    obtain ⟨parts, hparts, hrun, hlen⟩ := ih hrest
      (push_back (acc ++ List.zipWith Line.mk poly.points (poly.points.drop 1))
        (Line.mk (poly.points.get ⟨poly.points.length - 1, by omega⟩)
          (poly.points.get ⟨0, hpos⟩)))
    refine ⟨_ :: parts, List.Forall₂.cons hone hparts, ?_, ?_⟩
    · rw [to_lines_polys_loop]
      simp only [hloop, front_eq_get _ hpos, back_eq_get _ hpos, hrun]
      simp [push_back]
    · simp only [List.flatten_cons, List.length_append, hlen, List.map_cons, List.sum_cons]
      simp
      omega

/-! ## The claims -/

/-- C1: for every polygon, whatever it held, and every non-empty input sequence whose
last point equals its first, `set_points` leaves the polygon holding exactly the input
points in input order with the trailing point removed, and none of its old points. -/
theorem set_points_drops_closing_point (polygon : Polygon) (input : List Point)
    (hne : input ≠ []) (_hclosed : input.getLast? = input.head?) :
    polygon_mutable_traits.set_points polygon input = some ⟨input.dropLast⟩ :=
  set_points_eq_dropLast polygon input hne

/-- Witness of C1: a polygon holding one stale point is rebuilt from the closed square
`(0,0) (10,0) (10,10) (0,10) (0,0)`. -/
theorem set_points_drops_closing_point_witness :
    polygon_mutable_traits.set_points ⟨[⟨7, 7⟩]⟩
        [⟨0, 0⟩, ⟨10, 0⟩, ⟨10, 10⟩, ⟨0, 10⟩, ⟨0, 0⟩]
      = some ⟨[⟨0, 0⟩, ⟨10, 0⟩, ⟨10, 10⟩, ⟨0, 10⟩]⟩ :=
  set_points_drops_closing_point ⟨[⟨7, 7⟩]⟩
    [⟨0, 0⟩, ⟨10, 0⟩, ⟨10, 10⟩, ⟨0, 10⟩, ⟨0, 0⟩] (by decide) (by decide)

/-- C2: for every polygon with `n ≥ 1` stored points, `to_lines` returns exactly `n`
lines, the `i`-th going from stored point `i` to stored point `(i + 1) mod n`: the
consecutive stored pairs followed by the closing edge from the last point to the
first. -/
theorem to_lines_closed_ring (poly : Polygon) (h : 1 ≤ poly.points.length) :
    ∃ lines : Lines, to_lines poly = some lines ∧ lines.length = poly.points.length ∧
      ∀ (i : Nat) (hi : i < poly.points.length),
        lines[i]? = some (Line.mk (poly.points.get ⟨i, hi⟩)
          (poly.points.get ⟨(i + 1) % poly.points.length, Nat.mod_lt _ (by omega)⟩)) := by
  refine ⟨_, to_lines_eq poly (by omega), ?_, ?_⟩
  · simp
    omega
  · intro i hi
    by_cases hlast : i + 1 = poly.points.length
    · have hz : (i + 1) % poly.points.length = 0 := by rw [hlast]; exact Nat.mod_self _
      have hi1 : poly.points.length - 1 = i := by omega
      rw [List.getElem?_append_right (by simp; omega)]
      simp [hz, hi1, Nat.min_eq_right (Nat.le_of_lt hi)]
    · have hm : (i + 1) % poly.points.length = i + 1 := Nat.mod_eq_of_lt (by omega)
      rw [List.getElem?_append_left (by simp; omega)]
      have hi2 : i + 1 < poly.points.length := by omega
      simp [hm, List.getElem?_zipWith, List.getElem?_eq_getElem hi,
        List.getElem?_eq_getElem hi2]

/-- Witness of C2: the three lines of the triangle `(0,0) (10,0) (0,10)`. -/
theorem to_lines_closed_ring_witness :
    to_lines ⟨[⟨0, 0⟩, ⟨10, 0⟩, ⟨0, 10⟩]⟩
      = some [⟨⟨0, 0⟩, ⟨10, 0⟩⟩, ⟨⟨10, 0⟩, ⟨0, 10⟩⟩, ⟨⟨0, 10⟩, ⟨0, 0⟩⟩] := by
  obtain ⟨lines, hl, hlen, hget⟩ :=
    to_lines_closed_ring ⟨[⟨0, 0⟩, ⟨10, 0⟩, ⟨0, 10⟩]⟩ (by decide)
  have h0 := hget 0 (by decide)
  have h1 := hget 1 (by decide)
  have h2 := hget 2 (by decide)
  rw [hl]
  match lines, hlen, h0, h1, h2 with
  | [l0, l1, l2], _, h0, h1, h2 =>
    simp at h0 h1 h2
    simp [h0, h1, h2]

/-- C3 (evaluation at the failing input): on a polygon with no stored points, both
overloads of `to_lines` read outside the stored points, so no result is defined. -/
theorem to_lines_undefined_on_empty :
    to_lines ⟨[]⟩ = none ∧ to_lines_polys [⟨[]⟩] = none := by
  constructor
  · rw [to_lines, to_lines_loop]
    simp
  · rw [to_lines_polys, to_lines_polys_loop, to_lines_loop]
    simp

/-- C4 (evaluation at the failing input): on a collection holding a polygon with no
stored points, `to_polylines` reads `front()` of an empty point list, so no result is
defined; this is so wherever the empty polygon stands in the collection. -/
theorem to_polylines_undefined_on_empty_member :
    to_polylines [⟨[]⟩] = none ∧
      to_polylines [⟨[⟨0, 0⟩, ⟨10, 0⟩, ⟨0, 10⟩]⟩, ⟨[]⟩] = none := by
  constructor <;> decide

/-- C5 (evaluation at the failing input): on the empty input sequence, `set_points`
applies `pop_back()` to the point list it has just cleared, so no result is defined,
whatever the polygon held. -/
theorem set_points_undefined_on_empty_input (polygon : Polygon) :
    polygon_mutable_traits.set_points polygon [] = none := by
  rfl

/-- C6: for every destination `dst` and source `src`, both overloads of
`polygons_append` leave `dst` equal to the old `dst` followed by the polygons of `src`
in their order; for the rvalue overload this covers the empty `dst` (whole-vector
move) and the non-empty `dst` (element-wise move to the back). -/
theorem polygons_append_eq_append (dst src : Polygons) :
    polygons_append dst src = dst ++ src ∧ polygons_append_move dst src = dst ++ src := by
  constructor
  · simp [polygons_append, insert_range]
  · unfold polygons_append_move
    cases dst with
    | nil => simp
    | cons a w => simp [foldl_push_back]

/-- C7: for every polygon, walking from `begin_points` to `end_points` reads exactly
the stored points, in stored order, each once, with no closing copy of the first point
added, and `size` is the number of stored points. -/
theorem polygon_traits_iteration (t : Polygon) :
    visit_range t.points (polygon_traits.begin_points t) (polygon_traits.end_points t)
        = some t.points ∧
      polygon_traits.size t = t.points.length := by
  exact ⟨visit_range_all t.points, rfl⟩

/-- C8: for every polygon, whatever its points and orientation, `winding` returns
`unknown_winding`; the result does not depend on the polygon. -/
theorem winding_is_unknown (t : Polygon) :
    polygon_traits.winding t = winding_direction.unknown_winding := by
  rfl

/-- C9: for every collection and every input sequence of polygons, after `set` the walk
from `begin` to `end` of the collection reads exactly the input polygons in input
order: nothing is sorted, merged or dropped, and no previous member remains. -/
theorem polygon_set_set_then_iterate (polygons : Polygons) (input : List Polygon) :
    visit_range (polygon_set_mutable_traits.set polygons input)
        (polygon_set_traits.begin (polygon_set_mutable_traits.set polygons input))
        (polygon_set_traits.end_ (polygon_set_mutable_traits.set polygons input))
      = some input := by
  have e : polygon_set_mutable_traits.set polygons input = input := by
    simp [polygon_set_mutable_traits.set, assign_range, clear, foldl_push_back]
  rw [e]
  exact visit_range_all input

/-- C10: for every collection of polygons, the empty one and a single-polygon one
included, `clean` and `sorted` both return `false`. -/
theorem clean_and_sorted_are_false (polygon_set : Polygons) :
    polygon_set_traits.clean polygon_set = false ∧
      polygon_set_traits.sorted polygon_set = false := by
  exact ⟨rfl, rfl⟩

/-- C13: for every collection, `remove_degenerate` leaves exactly the members that have
3 or more points, each unchanged and in their original relative order, and removes
every member with fewer than 3 points. -/
theorem remove_degenerate_keeps_valid (polys : Polygons) :
    remove_degenerate polys = polys.filter (fun poly => decide (3 ≤ poly.points.length)) ∧
      List.Sublist (remove_degenerate polys) polys ∧
      ∀ poly, poly ∈ remove_degenerate polys ↔ poly ∈ polys ∧ 3 ≤ poly.points.length := by
  rw [remove_degenerate_eq_filter]
  refine ⟨rfl, List.filter_sublist _, ?_⟩
  intro poly
  simp [List.mem_filter]

/-- C14: for every collection whose polygons all have at least one stored point,
`to_polylines` returns one polyline per polygon, in the same order, and ends with
`idx` equal to the number of polylines (its closing assertion holds); each polyline
holds its polygon's stored points in order followed by one copy of the polygon's first
point, so it starts and ends at that point and has one more point than the polygon. -/
theorem to_polylines_closes_each_path (polys : Polygons)
    (h : ∀ poly ∈ polys, poly.points ≠ []) :
    ∃ polylines : Polylines,
      to_polylines_run polys = some (polylines, polylines.length) ∧
      to_polylines polys = some polylines ∧
      polylines = polys.map (fun poly => Polyline.mk (poly.points ++ poly.points.take 1)) ∧
      ∀ poly ∈ polys, ∃ f : Point, front poly.points = some f ∧
        poly.points ++ poly.points.take 1 = poly.points ++ [f] ∧
        (poly.points ++ [f]).head? = some f ∧
        (poly.points ++ [f]).getLast? = some f ∧
        (poly.points ++ [f]).length = poly.points.length + 1 := by
  refine ⟨_, ?_, to_polylines_eq polys h, rfl, ?_⟩
  · simpa using to_polylines_run_eq polys h
  · intro poly hmem
    obtain ⟨f, t, hft⟩ := List.exists_cons_of_ne_nil (h poly hmem)
    refine ⟨f, ?_, ?_, ?_, ?_, ?_⟩
    · rw [hft]; rfl
    · rw [hft]; rfl
    · rw [hft]; rfl
    · simp
    · simp

/-- Witness of C14: a triangle and a one-point polygon give two closed paths. -/
theorem to_polylines_closes_each_path_witness :
    to_polylines [⟨[⟨0, 0⟩, ⟨10, 0⟩, ⟨0, 10⟩]⟩, ⟨[⟨5, 5⟩]⟩]
      = some [⟨[⟨0, 0⟩, ⟨10, 0⟩, ⟨0, 10⟩, ⟨0, 0⟩]⟩, ⟨[⟨5, 5⟩, ⟨5, 5⟩]⟩] := by
  obtain ⟨polylines, _, hres, hmap, _⟩ :=
    to_polylines_closes_each_path [⟨[⟨0, 0⟩, ⟨10, 0⟩, ⟨0, 10⟩]⟩, ⟨[⟨5, 5⟩]⟩] (by decide)
  rw [hres, hmap]
  rfl

/-- C15: `set_points` removes the last input point without comparing it with the
first: for every non-empty input sequence of `n` points the polygon ends with the
first `n - 1` input points in order, whether or not the last point equals the first. -/
theorem set_points_pops_last_unconditionally (polygon : Polygon) (input : List Point)
    (hne : input ≠ []) :
    polygon_mutable_traits.set_points polygon input
      = some ⟨input.take (input.length - 1)⟩ := by
  rw [set_points_eq_dropLast polygon input hne, List.dropLast_eq_take]

/-- Witness of C15: the open square `(0,0) (10,0) (10,10) (0,10)`, whose last point
differs from its first, loses its last point. -/
theorem set_points_pops_last_unconditionally_witness :
    polygon_mutable_traits.set_points ⟨[⟨7, 7⟩]⟩ [⟨0, 0⟩, ⟨10, 0⟩, ⟨10, 10⟩, ⟨0, 10⟩]
      = some ⟨[⟨0, 0⟩, ⟨10, 0⟩, ⟨10, 10⟩]⟩ :=
  set_points_pops_last_unconditionally ⟨[⟨7, 7⟩]⟩
    [⟨0, 0⟩, ⟨10, 0⟩, ⟨10, 10⟩, ⟨0, 10⟩] (by decide)

/-- C16: for every collection whose polygons all have at least one stored point and
every target polygon `Q`, `to_polylines` returns one polyline per polygon, and
`set_points` applied to `Q` with the points of the polyline made for a polygon `P`
leaves exactly the stored points of `P`. -/
theorem to_polylines_set_points_round_trip (polys : Polygons) (Q : Polygon)
    (h : ∀ poly ∈ polys, poly.points ≠ []) :
    ∃ polylines : Polylines, to_polylines polys = some polylines ∧
      polylines.length = polys.length ∧
      ∀ (i : Nat) (hi : i < polys.length), ∃ pl : Polyline, polylines[i]? = some pl ∧
        polygon_mutable_traits.set_points Q pl.points = some (polys.get ⟨i, hi⟩) := by
  refine ⟨_, to_polylines_eq polys h, by simp, ?_⟩
  intro i hi
  have hmem : polys.get ⟨i, hi⟩ ∈ polys := List.get_mem polys i hi
  have hne := h _ hmem
  refine ⟨⟨(polys.get ⟨i, hi⟩).points ++ (polys.get ⟨i, hi⟩).points.take 1⟩, ?_, ?_⟩
  · simp [List.getElem?_map, List.getElem?_eq_getElem hi]
  · have hne2 : (polys.get ⟨i, hi⟩).points ++ (polys.get ⟨i, hi⟩).points.take 1 ≠ [] :=
      fun e => hne (List.append_eq_nil.mp e).1
    rw [set_points_eq_dropLast _ _ hne2, dropLast_append_take_one _ hne]

/-- Witness of C16: the path made for a triangle, given to `set_points` on a polygon
holding a stale point, gives the triangle back. -/
theorem to_polylines_set_points_round_trip_witness :
    ∃ pl : Polyline, to_polylines [⟨[⟨0, 0⟩, ⟨10, 0⟩, ⟨0, 10⟩]⟩] = some [pl] ∧
      polygon_mutable_traits.set_points ⟨[⟨7, 7⟩]⟩ pl.points
        = some ⟨[⟨0, 0⟩, ⟨10, 0⟩, ⟨0, 10⟩]⟩ := by
  obtain ⟨polylines, hres, hlen, hget⟩ :=
    to_polylines_set_points_round_trip [⟨[⟨0, 0⟩, ⟨10, 0⟩, ⟨0, 10⟩]⟩] ⟨[⟨7, 7⟩]⟩ (by decide)
  obtain ⟨pl, hpl, hset⟩ := hget 0 (by decide)
  match polylines, hlen, hpl with
  | [pl0], _, hpl =>
    simp at hpl
    subst hpl
    exact ⟨pl0, hres, hset⟩

/-- C17: for every collection whose polygons all have at least one stored point, the
rvalue overload `to_polylines(Polygons&&)` returns the same polylines as
`to_polylines(const Polygons&)`: the points of each polygon are intact when `front()`
is read after the `std::move`, so each path is closed with its polygon's own first
point. -/
theorem to_polylines_move_same_result (polys : Polygons)
    (h : ∀ poly ∈ polys, poly.points ≠ []) :
    ∃ polylines : Polylines, to_polylines_move polys = some polylines ∧
      to_polylines polys = some polylines ∧
      polylines = polys.map (fun poly => Polyline.mk (poly.points ++ poly.points.take 1)) := by
  refine ⟨_, ?_, to_polylines_eq polys h, rfl⟩
  rw [← to_polylines_eq polys h]
  simp [to_polylines_move, to_polylines_move_run, to_polylines, to_polylines_run,
    to_polylines_move_loop_eq]

/-- Witness of C17: the rvalue overload on a triangle and a two-point polygon. -/
theorem to_polylines_move_same_result_witness :
    to_polylines_move [⟨[⟨0, 0⟩, ⟨10, 0⟩, ⟨0, 10⟩]⟩, ⟨[⟨1, 2⟩, ⟨3, 4⟩]⟩]
        = some [⟨[⟨0, 0⟩, ⟨10, 0⟩, ⟨0, 10⟩, ⟨0, 0⟩]⟩, ⟨[⟨1, 2⟩, ⟨3, 4⟩, ⟨1, 2⟩]⟩] ∧
      to_polylines [⟨[⟨0, 0⟩, ⟨10, 0⟩, ⟨0, 10⟩]⟩, ⟨[⟨1, 2⟩, ⟨3, 4⟩]⟩]
        = some [⟨[⟨0, 0⟩, ⟨10, 0⟩, ⟨0, 10⟩, ⟨0, 0⟩]⟩, ⟨[⟨1, 2⟩, ⟨3, 4⟩, ⟨1, 2⟩]⟩] := by
  obtain ⟨polylines, hmove, hconst, hmap⟩ :=
    to_polylines_move_same_result [⟨[⟨0, 0⟩, ⟨10, 0⟩, ⟨0, 10⟩]⟩, ⟨[⟨1, 2⟩, ⟨3, 4⟩]⟩]
      (by decide)
  rw [hmove, hconst, hmap]
  exact ⟨rfl, rfl⟩

/-- C18: for every collection whose polygons all have at least one stored point,
`to_lines(const Polygons&)` returns the concatenation, in collection order, of what
`to_lines(const Polygon&)` returns for each member, and the number of lines returned
is the sum of the members' point counts, the amount reserved up front. -/
theorem to_lines_polys_is_concatenation (polys : Polygons)
    (h : ∀ poly ∈ polys, poly.points ≠ []) :
    ∃ parts : List Lines,
      List.Forall₂ (fun poly ls => to_lines poly = some ls) polys parts ∧
      to_lines_polys polys = some parts.flatten ∧
      parts.flatten.length = to_lines_n_lines polys ∧
      to_lines_n_lines polys = (polys.map (fun poly => poly.points.length)).sum := by
  obtain ⟨parts, hparts, hrun, hlen⟩ := to_lines_polys_loop_eq polys h []
  refine ⟨parts, hparts, ?_, ?_, to_lines_n_lines_eq_sum polys⟩
  · simpa [to_lines_polys] using hrun
  · rw [to_lines_n_lines_eq_sum, hlen]

/-- Witness of C18: a triangle and a two-point polygon give five lines. -/
theorem to_lines_polys_is_concatenation_witness :
    ∃ parts : List Lines,
      List.Forall₂ (fun poly ls => to_lines poly = some ls)
        [⟨[⟨0, 0⟩, ⟨10, 0⟩, ⟨0, 10⟩]⟩, ⟨[⟨1, 2⟩, ⟨3, 4⟩]⟩] parts ∧
      to_lines_polys [⟨[⟨0, 0⟩, ⟨10, 0⟩, ⟨0, 10⟩]⟩, ⟨[⟨1, 2⟩, ⟨3, 4⟩]⟩] = some parts.flatten ∧
      parts.flatten.length = 5 := by
  obtain ⟨parts, hparts, hrun, hlen, hsum⟩ :=
    to_lines_polys_is_concatenation [⟨[⟨0, 0⟩, ⟨10, 0⟩, ⟨0, 10⟩]⟩, ⟨[⟨1, 2⟩, ⟨3, 4⟩]⟩]
      (by decide)
  exact ⟨parts, hparts, hrun, by rw [hlen, hsum]; rfl⟩

end Slic3r
